import Mathlib

/-!
Shallow embedding of the `migrator` package (pnelson/migrator): a minimal
SQL schema-migration runner.  The embedding models:

* the registry of migrations (`Registry`, `Register`, `sorted`, the
  automatically registered sentinel version `"00010101T000000Z"`);
* the bookkeeping `versions` table as a list of rows (`Row`); the
  surrogate `id` and the server-assigned `created_at` timestamp of the Go
  `version` struct are never read by the engine or by any property here,
  so rows carry the two columns the engine writes and compares:
  `version` and `name`;
* the version-store queries (`queryVersionsLast` / `currentVersion`,
  insertion and deletion performed inside `migrateTx`);
* the engine (`Migrate`): target resolution, direction and plan
  computation (`resolveTarget`, `computePlan`, `shouldMigrate`) and the
  per-migration transactional loop (`runPlan`).

Go compares version strings with `<` / `<=`, the byte-wise lexicographic
order; a version string is modelled as its character list `Ver := List
Char` under the lexicographic order, which agrees with Go's order on the
ASCII timestamps the package uses and is computable in the kernel.

Migration bodies are opaque callables whose only observable behaviour is
success or failure, so a `MigrationFunc` is modelled by its outcome.
Fallible database operations (`db.Exec` of the DDL, the current-version
query, `db.Begin`, the bookkeeping `tx.Exec`, `tx.Commit`, `tx.Rollback`)
are modelled by an environment `Env` giving each call's outcome.
-/

namespace Migrator

/-- A Go version string: its characters, ordered lexicographically. -/
abbrev Ver := List Char

/-- Outcome of invoking a migration function on a transaction: `ok` or an
error message (Go: `type migrationFunc func(tx *sql.Tx) error`). -/
abbrev MigrationFunc := Except String Unit

/-- Decidable equality of `Except` values, used to evaluate the model on
concrete inputs. -/
instance {ε α : Type} [DecidableEq ε] [DecidableEq α] :
    DecidableEq (Except ε α) := fun a b =>
  match a, b with
  | .ok x, .ok y =>
    if h : x = y then isTrue (by rw [h]) else isFalse (by simp [h])
  | .error e, .error f =>
    if h : e = f then isTrue (by rw [h]) else isFalse (by simp [h])
  | .ok _, .error _ => isFalse (by simp)
  | .error _, .ok _ => isFalse (by simp)

/-- A migration is a named pair of `MigrationFunc` (Go: `type migration`). -/
structure Migration where
  name : String
  up : MigrationFunc
  down : MigrationFunc
deriving DecidableEq

instance : Inhabited Migration := ⟨⟨"", .ok (), .ok ()⟩⟩

/-- The registry `migrations`, a map of migration keyed by version
timestamp, modelled as an association list with unique keys. -/
abbrev Registry := List (Ver × Migration)

/-- Go's `Register`.  A `nil` Go function argument is modelled by `none`.
Go panics are modelled as `Except.error` with the panic message. -/
def Register (reg : Registry) (version : Ver) (name : String)
    (up down : Option MigrationFunc) : Except String Registry :=
  if up.isNone || down.isNone then
    .error "migrator: Register up and down are both required"
  else if (reg.lookup version).isSome then
    .error ("migrator: Register called twice for migrator " ++
      String.mk version)
  else
    .ok ((version, ⟨name, up.getD (.ok ()), down.getD (.ok ())⟩) :: reg)

/-- Go's `sorted`: the registered version timestamps in ascending
lexicographic order (`sort.Strings`). -/
def sorted (reg : Registry) : List Ver :=
  List.insertionSort (· ≤ ·) (reg.map Prod.fst)

/-- Go's `shouldMigrate`, verbatim:
down: `version <= current && version > target`;
up: `version > current && version <= target`. -/
def shouldMigrate (version current target : Ver) (up : Bool) : Bool :=
  if !up then
    decide (version ≤ current) && decide (version > target)
  else
    decide (version > current) && decide (version ≤ target)

/-- A row of the bookkeeping `versions` table, restricted to the columns
the engine writes and reads back. -/
structure Row where
  version : Ver
  name : String
deriving DecidableEq

/-- Result of the `queryVersionsLast` query (`ORDER BY version DESC
LIMIT 1`): one row, no rows (`sql.ErrNoRows`), or a query error. -/
inductive RowQuery where
  | row (v : Ver)
  | noRows
  | queryError (e : String)
deriving DecidableEq

/-- Go's `currentVersion`: maps `sql.ErrNoRows` to `("", nil)`, passes a
row's version or any other error through. -/
def currentVersion : RowQuery → Except String Ver
  | .row v => .ok v
  | .noRows => .ok []
  | .queryError e => .error e

/-- Outcomes of the fallible database calls `Migrate` makes, keyed by the
version being migrated where the call happens inside the loop.  `none`
means the call succeeds. -/
structure Env where
  createErr : Option String
  lastErr : Option String
  beginErr : Ver → Option String
  execErr : Ver → Option String
  commitErr : Ver → Option String
  rollbackErr : Ver → Option String

/-- The environment in which every database call succeeds. -/
def okEnv : Env :=
  ⟨none, none, fun _ => none, fun _ => none, fun _ => none, fun _ => none⟩

/-- The `queryVersionsLast` query against a table state: the greatest
`version` value if rows exist, `noRows` on an empty table, or the
environment's query error. -/
def queryVersionsLast (env : Env) (table : List Row) : RowQuery :=
  match env.lastErr with
  | some e => .queryError e
  | none =>
    match (table.map Row.version).maximum with
    | none => .noRows
    | some v => .row v

/-- Go's (lower-case) `migrate`: runs the appropriate `migrationFunc`
inside the transaction and records the migration in the versions table
(`queryVersionsInsert` appends a row; `queryVersionsDelete` deletes the
rows matching the version).  The transaction's table state is returned on
success; on error the caller rolls the transaction back. -/
def migrateTx (reg : Registry) (env : Env) (table : List Row)
    (version : Ver) (up : Bool) : Except String (List Row) :=
  match reg.lookup version with
  | none => .error "migrator: nil migration"
  | some m =>
    if !up then
      match m.down with
      | .error e => .error e
      | .ok _ =>
        match env.execErr version with
        | some e => .error e
        | none => .ok (table.filter (fun r => r.version != version))
    else
      match m.up with
      | .error e => .error e
      | .ok _ =>
        match env.execErr version with
        | some e => .error e
        | none => .ok (table ++ [⟨version, m.name⟩])

/-- Stderr line `Migrate` prints on a failed migration
(`"error migrating %q: %v\n"`). -/
def errMigrating (version : Ver) (e : String) : String :=
  "error migrating \"" ++ String.mk version ++ "\": " ++ e

/-- Result of a `Migrate` call: the returned error (if any), the final
bookkeeping table, and the lines printed to stderr. -/
structure RunResult where
  err : Option String
  table : List Row
  log : List String
deriving DecidableEq

/-- The per-migration loop of `Migrate`: for each selected version,
`db.Begin`, run `migrateTx`, roll back on error (aborting the run with
the original error, or with the rollback error if the rollback itself
fails), otherwise `tx.Commit` and continue. -/
def runPlan (reg : Registry) (env : Env) (up : Bool) :
    List Ver → List Row → List String → RunResult
  | [], table, log => ⟨none, table, log⟩
  | v :: rest, table, log =>
    match env.beginErr v with
    | some e => ⟨some e, table, log⟩
    | none =>
      match migrateTx reg env table v up with
      | .error e =>
        match env.rollbackErr v with
        | some re => ⟨some re, table, log ++ [errMigrating v e]⟩
        | none => ⟨some e, table, log ++ [errMigrating v e]⟩
      | .ok table2 =>
        match env.commitErr v with
        | some e => ⟨some e, table, log⟩
        | none => runPlan reg env up rest table2 log

/-- Target resolution at the top of `Migrate`: an empty target stands for
the most recent registered version, `vs[len(vs)-1]` of the ascending
sorted list.  (Go indexes out of range on an empty registry; the `init`
sentinel makes the registry non-empty in the real program, and every
property below assumes a non-empty registry in this case.) -/
def resolveTarget (reg : Registry) (target : Ver) : Ver :=
  if target = [] then (sorted reg).getLastD [] else target

/-- Direction and plan of `Migrate`: `up := true`, flipped to `false`
with the version list reversed when `current > target`; the loop then
skips every version failing `shouldMigrate`. -/
def computePlan (reg : Registry) (current target : Ver) :
    Bool × List Ver :=
  let vs := sorted reg
  let up := !(decide (current > target))
  let vs2 := if current > target then vs.reverse else vs
  (up, vs2.filter (fun v => shouldMigrate v current target up))

/-- Go's `Migrate`: resolve the target, create the versions table, read
the current version (printing the query error to stderr if it fails),
compute direction and plan, and run the loop. -/
def Migrate (reg : Registry) (env : Env) (table : List Row)
    (target : Ver) : RunResult :=
  let target2 := resolveTarget reg target
  match env.createErr with
  | some e => ⟨some e, table, []⟩
  | none =>
    match currentVersion (queryVersionsLast env table) with
    | .error e =>
      ⟨some e, table, ["error querying latest migration version: " ++ e]⟩
    | .ok current =>
      let p := computePlan reg current target2
      runPlan reg env p.1 p.2 table []

/-- Go's `empty`, the nil migration body of the sentinel: returns `nil`. -/
def emptyFunc : MigrationFunc := .ok ()

/-- The sentinel version registered by the package's `init` function. -/
def zeroVersion : Ver := "00010101T000000Z".toList

/-- The registry state produced by the package's `init` function:
`Register("00010101T000000Z", "nil", empty, empty)` applied to the empty
registry. -/
def initRegistry : Registry := [(zeroVersion, ⟨"nil", emptyFunc, emptyFunc⟩)]

/-- The committed effect of one migration on the bookkeeping table:
up appends the (version, name) row, down deletes the rows matching the
version. -/
def applyStep (reg : Registry) (up : Bool) (table : List Row) (v : Ver) :
    List Row :=
  match reg.lookup v with
  | none => table
  | some m =>
    if up then table ++ [⟨v, m.name⟩]
    else table.filter (fun r => r.version != v)

/-- The committed effect of a whole plan on the bookkeeping table. -/
def applyPlan (reg : Registry) (up : Bool) (plan : List Ver)
    (table : List Row) : List Row :=
  plan.foldl (applyStep reg up) table

/-- All the database calls for one planned version succeed and its
migration function (in the given direction) returns `nil`. -/
def StepOk (reg : Registry) (env : Env) (up : Bool) (v : Ver) : Prop :=
  env.beginErr v = none ∧ env.execErr v = none ∧ env.commitErr v = none ∧
    ∃ m, reg.lookup v = some m ∧ (if up then m.up else m.down) = .ok ()

/-! ### Association-list and sortedness lemmas -/

theorem lookup_eq_some_of_mem_keys {reg : Registry} {v : Ver}
    (h : v ∈ reg.map Prod.fst) : ∃ m, reg.lookup v = some m := by
  induction reg with
  | nil => simp at h
  | cons p rest ih =>
    obtain ⟨k, m0⟩ := p
    by_cases hv : v = k
    · subst hv
      exact ⟨m0, by rw [List.lookup_cons, beq_self_eq_true]⟩
    · have hne : (v == k) = false := beq_eq_false_iff_ne.mpr hv
      rcases ih (by simpa [hv] using h) with ⟨m, hm⟩
      exact ⟨m, by rw [List.lookup_cons, hne]; exact hm⟩

theorem mem_of_lookup_eq_some {reg : Registry} {v : Ver} {m : Migration}
    (h : reg.lookup v = some m) : (v, m) ∈ reg := by
  induction reg with
  | nil => simp [List.lookup] at h
  | cons p rest ih =>
    obtain ⟨k, m0⟩ := p
    by_cases hv : v = k
    · subst hv
      rw [List.lookup_cons, beq_self_eq_true] at h
      have h2 : some m0 = some m := h
      obtain rfl : m0 = m := Option.some.inj h2
      exact List.mem_cons_self _ _
    · have hne : (v == k) = false := beq_eq_false_iff_ne.mpr hv
      rw [List.lookup_cons, hne] at h
      have h2 : List.lookup v rest = some m := h
      exact List.mem_cons_of_mem _ (ih h2)

theorem mem_sorted {reg : Registry} {v : Ver} :
    v ∈ sorted reg ↔ v ∈ reg.map Prod.fst := by
  simp [sorted]

theorem sorted_le (reg : Registry) : (sorted reg).Sorted (· ≤ ·) :=
  List.sorted_insertionSort _ _

theorem sorted_nodup {reg : Registry} (h : (reg.map Prod.fst).Nodup) :
    (sorted reg).Nodup :=
  ((List.perm_insertionSort (· ≤ ·) (reg.map Prod.fst)).nodup_iff).mpr h

theorem sorted_lt {reg : Registry} (h : (reg.map Prod.fst).Nodup) :
    (sorted reg).Sorted (· < ·) :=
  (sorted_le reg).lt_of_le (sorted_nodup h)

theorem le_getLastD_of_sorted : ∀ (l : List Ver), l.Sorted (· ≤ ·) →
    ∀ (d v : Ver), v ∈ l → v ≤ l.getLastD d
  | [], _, _, _, hv => absurd hv (List.not_mem_nil _)
  | [a], _, d, v, hv => by
    obtain rfl : v = a := by simpa using hv
    simp
  | a :: b :: u, hs, d, v, hv => by
    rw [List.getLastD_cons]
    rcases List.mem_cons.mp hv with rfl | hvt
    · have hab : v ≤ b := (List.sorted_cons.mp hs).1 b (List.mem_cons_self _ _)
      exact le_trans hab (le_getLastD_of_sorted (b :: u)
        (List.sorted_cons.mp hs).2 v b (List.mem_cons_self _ _))
    · exact le_getLastD_of_sorted (b :: u) (List.sorted_cons.mp hs).2 a v hvt

theorem getLastD_mem : ∀ (l : List Ver), l ≠ [] → ∀ d : Ver,
    l.getLastD d ∈ l
  | [], h, _ => absurd rfl h
  | [a], _, d => by simp
  | a :: b :: u, _, d => by
    rw [List.getLastD_cons]
    exact List.mem_cons_of_mem _ (getLastD_mem (b :: u) (by simp) a)

/-! ### `shouldMigrate` and `computePlan` lemmas -/

theorem shouldMigrate_up_iff {v c t : Ver} :
    shouldMigrate v c t true = true ↔ c < v ∧ v ≤ t := by
  simp [shouldMigrate, and_comm]

theorem shouldMigrate_down_iff {v c t : Ver} :
    shouldMigrate v c t false = true ↔ v ≤ c ∧ t < v := by
  simp [shouldMigrate]

theorem computePlan_up {reg : Registry} {current target : Ver}
    (h : ¬current > target) :
    computePlan reg current target =
      (true, (sorted reg).filter
        (fun v => shouldMigrate v current target true)) := by
  simp [computePlan, h]

theorem computePlan_down {reg : Registry} {current target : Ver}
    (h : current > target) :
    computePlan reg current target =
      (false, (sorted reg).reverse.filter
        (fun v => shouldMigrate v current target false)) := by
  simp [computePlan, h]

/-! ### `migrateTx`, `runPlan` and `applyPlan` lemmas -/

theorem migrateTx_ok {reg : Registry} {env : Env} {v : Ver} {m : Migration}
    {up : Bool} (hm : reg.lookup v = some m)
    (ha : (if up then m.up else m.down) = .ok ())
    (hx : env.execErr v = none) (table : List Row) :
    migrateTx reg env table v up = .ok (applyStep reg up table v) := by
  cases up with
  | false =>
    simp only [Bool.false_eq_true, if_false] at ha
    simp [migrateTx, applyStep, hm, ha, hx]
  | true =>
    simp only [if_true] at ha
    simp [migrateTx, applyStep, hm, ha, hx]

theorem migrateTx_error {reg : Registry} {env : Env} {v : Ver}
    {m : Migration} {up : Bool} {e : String} (hm : reg.lookup v = some m)
    (he : (if up then m.up else m.down) = .error e ∨
      ((if up then m.up else m.down) = .ok () ∧ env.execErr v = some e))
    (table : List Row) :
    migrateTx reg env table v up = .error e := by
  cases up with
  | false =>
    simp only [Bool.false_eq_true, if_false] at he
    rcases he with ha | ⟨ha, hx⟩
    · simp [migrateTx, hm, ha]
    · simp [migrateTx, hm, ha, hx]
  | true =>
    simp only [if_true] at he
    rcases he with ha | ⟨ha, hx⟩
    · simp [migrateTx, hm, ha]
    · simp [migrateTx, hm, ha, hx]

theorem runPlan_cons_ok {reg : Registry} {env : Env} {up : Bool} {v : Ver}
    (hok : StepOk reg env up v) (rest : List Ver) (table : List Row)
    (log : List String) :
    runPlan reg env up (v :: rest) table log =
      runPlan reg env up rest (applyStep reg up table v) log := by
  obtain ⟨hb, hx, hc, m, hm, ha⟩ := hok
  simp [runPlan, hb, hc, migrateTx_ok hm ha hx table]

theorem runPlan_append_ok {reg : Registry} {env : Env} {up : Bool}
    {pre : List Ver} (hok : ∀ v ∈ pre, StepOk reg env up v)
    (rest : List Ver) (table : List Row) (log : List String) :
    runPlan reg env up (pre ++ rest) table log =
      runPlan reg env up rest (applyPlan reg up pre table) log := by
  induction pre generalizing table with
  | nil => simp [applyPlan]
  | cons v t ih =>
    rw [List.cons_append,
      runPlan_cons_ok (hok v (List.mem_cons_self _ _)) (t ++ rest) table log,
      ih (fun w hw => hok w (List.mem_cons_of_mem _ hw))]
    simp [applyPlan]

theorem runPlan_all_ok {reg : Registry} {env : Env} {up : Bool}
    {plan : List Ver} (hok : ∀ v ∈ plan, StepOk reg env up v)
    (table : List Row) (log : List String) :
    runPlan reg env up plan table log =
      ⟨none, applyPlan reg up plan table, log⟩ := by
  have := runPlan_append_ok hok [] table log
  simpa [runPlan] using this

theorem applyPlan_up_map_version {reg : Registry} {plan : List Ver}
    (hk : ∀ v ∈ plan, v ∈ reg.map Prod.fst) (table : List Row) :
    (applyPlan reg true plan table).map Row.version =
      table.map Row.version ++ plan := by
  induction plan generalizing table with
  | nil => simp [applyPlan]
  | cons v t ih =>
    rcases lookup_eq_some_of_mem_keys (hk v (List.mem_cons_self _ _)) with
      ⟨m, hm⟩
    have step : applyStep reg true table v = table ++ [⟨v, m.name⟩] := by
      simp [applyStep, hm]
    have := ih (fun w hw => hk w (List.mem_cons_of_mem _ hw))
      (applyStep reg true table v)
    simp only [applyPlan, List.foldl_cons] at this ⊢
    rw [this, step]
    simp

theorem mem_applyPlan_down {reg : Registry} {plan : List Ver}
    (hk : ∀ v ∈ plan, v ∈ reg.map Prod.fst) (table : List Row)
    {r : Row} (hr : r ∈ applyPlan reg false plan table) :
    r ∈ table ∧ r.version ∉ plan := by
  induction plan generalizing table with
  | nil => simpa [applyPlan] using hr
  | cons v t ih =>
    rcases lookup_eq_some_of_mem_keys (hk v (List.mem_cons_self _ _)) with
      ⟨m, hm⟩
    have step : applyStep reg false table v =
        table.filter (fun r => r.version != v) := by
      simp [applyStep, hm]
    simp only [applyPlan, List.foldl_cons, step] at hr
    have h2 := ih (fun w hw => hk w (List.mem_cons_of_mem _ hw)) _ hr
    rcases h2 with ⟨hmem, hnot⟩
    have := List.mem_filter.mp hmem
    refine ⟨this.1, ?_⟩
    intro hcon
    rcases List.mem_cons.mp hcon with hv | hv
    · exact absurd hv (by simpa using this.2)
    · exact hnot hv

theorem maximum_eq_some_of_mem_of_le {l : List Ver} {V : Ver}
    (hmem : V ∈ l) (hle : ∀ w ∈ l, w ≤ V) : l.maximum = some V :=
  List.maximum_eq_coe_iff.mpr ⟨hmem, hle⟩

theorem Migrate_eq_runPlan {reg : Registry} {env : Env} {table : List Row}
    {target current : Ver} (hc : env.createErr = none)
    (hcur : currentVersion (queryVersionsLast env table) = .ok current) :
    Migrate reg env table target =
      runPlan reg env (computePlan reg current (resolveTarget reg target)).1
        (computePlan reg current (resolveTarget reg target)).2 table [] := by
  simp [Migrate, hc, hcur]

/-! ### Concrete registries used by the closed theorems -/

/-- A migration whose actions both succeed. -/
def okMig (name : String) : Migration := ⟨name, .ok (), .ok ()⟩

def verA : Ver := "20200101T000000Z".toList

def verB : Ver := "20200201T000000Z".toList

def verC : Ver := "20200301T000000Z".toList

/-- The registry with `verA`, `verB`, `verC` registered on top of the
`init` sentinel. -/
def regC3 : Registry :=
  (verC, okMig "c") :: (verB, okMig "b") :: (verA, okMig "a") :: initRegistry

/-- `regC3` is what the three `Register` calls produce from the `init`
state. -/
theorem regC3_from_Register :
    (Register initRegistry verA "a" (some (.ok ())) (some (.ok ())) |>.bind
      fun r1 => Register r1 verB "b" (some (.ok ())) (some (.ok ())) |>.bind
        fun r2 => Register r2 verC "c" (some (.ok ())) (some (.ok ()))) =
      .ok regC3 := by decide

/-! ### Claims -/

/-- Claim C1: for every registered-version set with distinct versions,
every current version and every target version with `current ≤ target`,
the plan computed by `Migrate` is the UP direction and selects exactly
the registered versions `v` with `current < v ≤ target`, visiting them
in strictly ascending order. -/
theorem up_plan_correct (reg : Registry) (current target : Ver)
    (hnd : (reg.map Prod.fst).Nodup) (hct : current ≤ target) :
    (computePlan reg current target).1 = true ∧
    (computePlan reg current target).2.Sorted (· < ·) ∧
    ∀ v, v ∈ (computePlan reg current target).2 ↔
      v ∈ reg.map Prod.fst ∧ current < v ∧ v ≤ target := by
  have hng : ¬current > target := not_lt.mpr hct
  rw [computePlan_up hng]
  refine ⟨rfl, (sorted_lt hnd).filter _, ?_⟩
  intro v
  simp only [List.mem_filter, mem_sorted, shouldMigrate_up_iff]
  try tauto

/-- Witness for C1 at the `init` registry, `current = ""`,
`target = "00010101T000000Z"`. -/
theorem up_plan_correct_witness :
    (initRegistry.map Prod.fst).Nodup ∧ ([] : Ver) ≤ zeroVersion ∧
    ((computePlan initRegistry [] zeroVersion).1 = true ∧
      (computePlan initRegistry [] zeroVersion).2.Sorted (· < ·) ∧
      ∀ v, v ∈ (computePlan initRegistry [] zeroVersion).2 ↔
        v ∈ initRegistry.map Prod.fst ∧ [] < v ∧ v ≤ zeroVersion) :=
  ⟨by decide, by decide,
    up_plan_correct initRegistry [] zeroVersion (by decide) (by decide)⟩

/-- Claim C2: for every registered-version set with distinct versions,
every current version and every target version with `current > target`,
the plan computed by `Migrate` is the DOWN direction and selects exactly
the registered versions `v` with `target < v ≤ current`, visiting them
in strictly descending order. -/
theorem down_plan_correct (reg : Registry) (current target : Ver)
    (hnd : (reg.map Prod.fst).Nodup) (hct : current > target) :
    (computePlan reg current target).1 = false ∧
    (computePlan reg current target).2.Sorted (· > ·) ∧
    ∀ v, v ∈ (computePlan reg current target).2 ↔
      v ∈ reg.map Prod.fst ∧ target < v ∧ v ≤ current := by
  rw [computePlan_down hct]
  have hrev : (sorted reg).reverse.Sorted (· > ·) :=
    List.pairwise_reverse.mpr (sorted_lt hnd)
  refine ⟨rfl, hrev.filter _, ?_⟩
  intro v
  simp only [List.mem_filter, List.mem_reverse, mem_sorted,
    shouldMigrate_down_iff]
  tauto

/-- Witness for C2 at the `init` registry, `current = "00010101T000000Z"`,
`target = ""`. -/
theorem down_plan_correct_witness :
    (initRegistry.map Prod.fst).Nodup ∧ zeroVersion > ([] : Ver) ∧
    ((computePlan initRegistry zeroVersion []).1 = false ∧
      (computePlan initRegistry zeroVersion []).2.Sorted (· > ·) ∧
      ∀ v, v ∈ (computePlan initRegistry zeroVersion []).2 ↔
        v ∈ initRegistry.map Prod.fst ∧ [] < v ∧ v ≤ zeroVersion) :=
  ⟨by decide, by decide,
    down_plan_correct initRegistry zeroVersion [] (by decide) (by decide)⟩

/-- Counterexample to claim C3: with `verA`, `verB`, `verC` registered on
top of the automatically registered sentinel and an empty version store,
`Migrate(db, "")` does not compute the plan `[verA, verB, verC]` and does
not commit exactly those three rows: the sentinel version is also
selected (the current version reads as the empty string, which the
sentinel exceeds). -/
theorem migrate_to_latest_c3_counterexample :
    (computePlan regC3 [] (resolveTarget regC3 [])).2 ≠ [verA, verB, verC] ∧
    (Migrate regC3 okEnv [] []).table.map Row.version ≠
      [verA, verB, verC] := by decide

/-- Claim C3 as amended: with `verA`, `verB`, `verC` registered on top of
the automatically registered sentinel and an empty version store,
`Migrate(db, "")` computes the ascending plan
`[sentinel, verA, verB, verC]`, commits all four rows (the sentinel's
no-op row included), reports no error, and `current_version()` afterwards
returns `verC`. -/
theorem migrate_to_latest_c3_amended :
    (computePlan regC3 [] (resolveTarget regC3 [])).2 =
      [zeroVersion, verA, verB, verC] ∧
    Migrate regC3 okEnv [] [] =
      ⟨none, [⟨zeroVersion, "nil"⟩, ⟨verA, "a"⟩, ⟨verB, "b"⟩, ⟨verC, "c"⟩],
        []⟩ ∧
    currentVersion
        (queryVersionsLast okEnv (Migrate regC3 okEnv [] []).table) =
      .ok verC := by decide

/-- Counterexample to claim C4: the "none applied" outcome of
`currentVersion` is not a non-string signal — it is the empty string with
a nil error, and it coincides with the outcome produced when the greatest
applied version is itself the empty string, so it is not distinguishable
from every possible applied version string. -/
theorem currentVersion_c4_counterexample :
    currentVersion .noRows = .ok [] ∧
    currentVersion (.row []) = currentVersion .noRows :=
  ⟨rfl, rfl⟩

/-- Claim C4 as amended: when the bookkeeping table contains no rows (and
the query succeeds), `currentVersion` returns the empty string with no
error — a non-error outcome distinguishable from a query error and from
any non-empty applied version string; when rows exist it returns the
lexicographically greatest applied version string; a query error is
passed through as an error. -/
theorem currentVersion_c4_amended (env : Env) (table : List Row)
    (hq : env.lastErr = none) :
    (table = [] → currentVersion (queryVersionsLast env table) = .ok []) ∧
    (table ≠ [] → ∃ v, currentVersion (queryVersionsLast env table) =
      .ok v ∧ v ∈ table.map Row.version ∧
      ∀ w ∈ table.map Row.version, w ≤ v) ∧
    (∀ e, currentVersion (.queryError e) = .error e) := by
  refine ⟨?_, ?_, fun _ => rfl⟩
  · rintro rfl
    simp [queryVersionsLast, hq, currentVersion]
  · intro hne
    have hmne : table.map Row.version ≠ [] := by
      simpa [List.map_eq_nil_iff] using hne
    cases hmax : (table.map Row.version).maximum with
    | bot => exact absurd (List.maximum_eq_none.mp hmax) hmne
    | coe v =>
      refine ⟨v, ?_, List.maximum_mem hmax,
        fun w hw => List.le_maximum_of_mem hw hmax⟩
      simp only [queryVersionsLast, hq]
      rw [hmax]
      rfl

/-- Witness for C4 (amended) at the empty table and at a one-row table. -/
theorem currentVersion_c4_amended_witness :
    okEnv.lastErr = none ∧
    currentVersion (queryVersionsLast okEnv []) = .ok [] ∧
    (∃ v, currentVersion (queryVersionsLast okEnv [⟨verA, "a"⟩]) =
      .ok v ∧ v ∈ ([⟨verA, "a"⟩] : List Row).map Row.version ∧
      ∀ w ∈ ([⟨verA, "a"⟩] : List Row).map Row.version, w ≤ v) :=
  ⟨rfl, (currentVersion_c4_amended okEnv [] rfl).1 rfl,
    (currentVersion_c4_amended okEnv [⟨verA, "a"⟩] rfl).2.1 (by simp)⟩

/-- Claim C5: for every non-empty registry, the empty-string target is
resolved to the greatest registered version (migrate to latest) before
direction and plan are computed. -/
theorem resolveTarget_empty_latest (reg : Registry) (h : reg ≠ []) :
    resolveTarget reg [] ∈ reg.map Prod.fst ∧
    ∀ v ∈ reg.map Prod.fst, v ≤ resolveTarget reg [] := by
  have hs : sorted reg ≠ [] := by
    intro hc
    have hperm := (List.perm_insertionSort (· ≤ ·) (reg.map Prod.fst)).symm
    rw [sorted] at hc
    rw [hc] at hperm
    exact h (List.map_eq_nil_iff.mp hperm.eq_nil)
  constructor
  · have := getLastD_mem (sorted reg) hs []
    rw [← mem_sorted]
    simpa [resolveTarget] using this
  · intro v hv
    have := le_getLastD_of_sorted (sorted reg) (sorted_le reg) [] v
      (mem_sorted.mpr hv)
    simpa [resolveTarget] using this

/-- Witness for C5 at the registry of the C3 scenario: the empty target
resolves to `verC`. -/
theorem resolveTarget_empty_latest_witness :
    regC3 ≠ [] ∧ resolveTarget regC3 [] ∈ regC3.map Prod.fst ∧
    ∀ v ∈ regC3.map Prod.fst, v ≤ resolveTarget regC3 [] :=
  ⟨by decide, (resolveTarget_empty_latest regC3 (by decide)).1,
    (resolveTarget_empty_latest regC3 (by decide)).2⟩

/-- Claim C6: when the current version equals the (resolved) target, the
selected plan is empty in both directions, no migration runs and no
bookkeeping row is written or deleted, and `Migrate` reports no error. -/
theorem migrate_noop_when_current_eq_target (reg : Registry) (env : Env)
    (table : List Row) (target x : Ver) (hc : env.createErr = none)
    (hcur : currentVersion (queryVersionsLast env table) = .ok x)
    (ht : resolveTarget reg target = x) :
    (∀ v u, shouldMigrate v x x u = false) ∧
    (computePlan reg x x).2 = [] ∧
    Migrate reg env table target = ⟨none, table, []⟩ := by
  have hsm : ∀ v u, shouldMigrate v x x u = false := by
    intro v u
    cases u with
    | false =>
      by_cases h : v ≤ x
      · simp [shouldMigrate, gt_iff_lt, h, not_lt.mpr h]
      · simp [shouldMigrate, gt_iff_lt, h]
    | true =>
      by_cases h : x < v
      · simp [shouldMigrate, gt_iff_lt, h, not_le.mpr h]
      · simp [shouldMigrate, gt_iff_lt, h]
  have hplan : computePlan reg x x = (true, []) := by
    rw [computePlan_up (lt_irrefl x)]
    have : ∀ v ∈ sorted reg, ¬(shouldMigrate v x x true = true) :=
      fun v _ => by simp [hsm v true]
    rw [List.filter_eq_nil_iff.mpr this]
  refine ⟨hsm, by rw [hplan], ?_⟩
  rw [Migrate_eq_runPlan hc hcur, ht, hplan]
  rfl

/-- Witness for C6 at the `init` registry with its sentinel applied and
the sentinel as target. -/
theorem migrate_noop_when_current_eq_target_witness :
    okEnv.createErr = none ∧
    currentVersion (queryVersionsLast okEnv [⟨zeroVersion, "nil"⟩]) =
      .ok zeroVersion ∧
    resolveTarget initRegistry zeroVersion = zeroVersion ∧
    ((∀ v u, shouldMigrate v zeroVersion zeroVersion u = false) ∧
      (computePlan initRegistry zeroVersion zeroVersion).2 = [] ∧
      Migrate initRegistry okEnv [⟨zeroVersion, "nil"⟩] zeroVersion =
        ⟨none, [⟨zeroVersion, "nil"⟩], []⟩) :=
  ⟨rfl, by decide, by decide,
    migrate_noop_when_current_eq_target initRegistry okEnv
      [⟨zeroVersion, "nil"⟩] zeroVersion zeroVersion rfl (by decide)
      (by decide)⟩

/-- Claim C7: if the up/down action (or the bookkeeping write sharing its
transaction) of some planned migration fails and the rollback succeeds,
`Migrate` returns that migration's error, its row is neither inserted nor
deleted, no subsequent plan entry is attempted, and every earlier
migration of the same run stays committed. -/
theorem migrate_aborts_on_failure (reg : Registry) (env : Env)
    (table : List Row) (target current : Ver) (up : Bool)
    (pre post : List Ver) (v : Ver) (m : Migration) (e : String)
    (hc : env.createErr = none)
    (hcur : currentVersion (queryVersionsLast env table) = .ok current)
    (hplan : computePlan reg current (resolveTarget reg target) =
      (up, pre ++ v :: post))
    (hpre : ∀ w ∈ pre, StepOk reg env up w)
    (hb : env.beginErr v = none)
    (hm : reg.lookup v = some m)
    (ha : (if up then m.up else m.down) = .error e ∨
      ((if up then m.up else m.down) = .ok () ∧ env.execErr v = some e))
    (hr : env.rollbackErr v = none) :
    Migrate reg env table target =
      ⟨some e, applyPlan reg up pre table, [errMigrating v e]⟩ := by
  have h1 : (computePlan reg current (resolveTarget reg target)).1 = up :=
    by rw [hplan]
  have h2 : (computePlan reg current (resolveTarget reg target)).2 =
      pre ++ v :: post := by rw [hplan]
  rw [Migrate_eq_runPlan hc hcur, h1, h2, runPlan_append_ok hpre]
  simp [runPlan, hb, migrateTx_error hm ha, hr]

/-- The registry of the C7/C10 scenario: three real migrations on top of
the sentinel, the second one failing. -/
def regFail : Registry :=
  (verC, okMig "c") :: (verB, ⟨"b", .error "boom", .ok ()⟩) ::
    (verA, okMig "a") :: initRegistry

/-- Witness for C7: with `regFail` and an empty store, the run commits
the sentinel and `verA`, fails on `verB`, never reaches `verC`, and
returns the failing migration's error. -/
theorem migrate_aborts_on_failure_witness :
    okEnv.createErr = none ∧
    currentVersion (queryVersionsLast okEnv []) = .ok [] ∧
    computePlan regFail [] (resolveTarget regFail []) =
      (true, [zeroVersion, verA] ++ verB :: [verC]) ∧
    Migrate regFail okEnv [] [] =
      ⟨some "boom", applyPlan regFail true [zeroVersion, verA] [],
        [errMigrating verB "boom"]⟩ :=
  ⟨rfl, rfl, by decide,
    migrate_aborts_on_failure regFail okEnv [] [] [] true
      [zeroVersion, verA] [verC] verB ⟨"b", .error "boom", .ok ()⟩ "boom"
      rfl rfl (by decide)
      (fun w hw => by
        fin_cases hw
        · exact ⟨rfl, rfl, rfl, ⟨"nil", emptyFunc, emptyFunc⟩,
            by decide, rfl⟩
        · exact ⟨rfl, rfl, rfl, okMig "a", by decide, rfl⟩)
      rfl (by decide) (Or.inl rfl) rfl⟩

/-- Claim C10: when a planned migration's action or bookkeeping write
fails and the subsequent transaction rollback itself also returns an
error, `Migrate` returns the rollback error to the caller instead of the
original migration error; the original cause appears only in the stderr
log. -/
theorem migrate_rollback_error_shadows_cause (reg : Registry) (env : Env)
    (table : List Row) (target current : Ver) (up : Bool)
    (pre post : List Ver) (v : Ver) (m : Migration) (e re : String)
    (hc : env.createErr = none)
    (hcur : currentVersion (queryVersionsLast env table) = .ok current)
    (hplan : computePlan reg current (resolveTarget reg target) =
      (up, pre ++ v :: post))
    (hpre : ∀ w ∈ pre, StepOk reg env up w)
    (hb : env.beginErr v = none)
    (hm : reg.lookup v = some m)
    (ha : (if up then m.up else m.down) = .error e ∨
      ((if up then m.up else m.down) = .ok () ∧ env.execErr v = some e))
    (hr : env.rollbackErr v = some re) :
    Migrate reg env table target =
      ⟨some re, applyPlan reg up pre table, [errMigrating v e]⟩ := by
  have h1 : (computePlan reg current (resolveTarget reg target)).1 = up :=
    by rw [hplan]
  have h2 : (computePlan reg current (resolveTarget reg target)).2 =
      pre ++ v :: post := by rw [hplan]
  rw [Migrate_eq_runPlan hc hcur, h1, h2, runPlan_append_ok hpre]
  simp [runPlan, hb, migrateTx_error hm ha, hr]

/-- The all-ok environment except that the rollback of `verB`'s
transaction fails. -/
def rollbackFailEnv : Env :=
  ⟨none, none, fun _ => none, fun _ => none, fun _ => none,
    fun v => if v = verB then some "rollback broke" else none⟩

/-- Witness for C10: `verB`'s action fails with "boom", its rollback
fails with "rollback broke"; `Migrate` returns "rollback broke" and
"boom" appears only in the stderr log. -/
theorem migrate_rollback_error_shadows_cause_witness :
    rollbackFailEnv.createErr = none ∧
    currentVersion (queryVersionsLast rollbackFailEnv []) = .ok [] ∧
    rollbackFailEnv.rollbackErr verB = some "rollback broke" ∧
    Migrate regFail rollbackFailEnv [] [] =
      ⟨some "rollback broke", applyPlan regFail true [zeroVersion, verA] [],
        [errMigrating verB "boom"]⟩ :=
  ⟨rfl, rfl, by decide,
    migrate_rollback_error_shadows_cause regFail rollbackFailEnv [] [] []
      true [zeroVersion, verA] [verC] verB ⟨"b", .error "boom", .ok ()⟩
      "boom" "rollback broke" rfl rfl (by decide)
      (fun w hw => by
        fin_cases hw
        · exact ⟨rfl, rfl, rfl, ⟨"nil", emptyFunc, emptyFunc⟩,
            by decide, rfl⟩
        · exact ⟨rfl, rfl, rfl, okMig "a", by decide, rfl⟩)
      rfl (by decide) (Or.inl rfl) (by decide)⟩

/-- Claim C9: `Register(version, name, up, down)` fails fatally (panics)
if and only if `up` is nil, `down` is nil, or `version` is already
registered; otherwise it inserts the migration into the registry and
returns normally. -/
theorem Register_panics_iff (reg : Registry) (version : Ver)
    (name : String) (up down : Option MigrationFunc) :
    ((∃ e, Register reg version name up down = .error e) ↔
      (up = none ∨ down = none ∨ version ∈ reg.map Prod.fst)) ∧
    (∀ u d, up = some u → down = some d → version ∉ reg.map Prod.fst →
      Register reg version name up down =
        .ok ((version, ⟨name, u, d⟩) :: reg)) := by
  rcases up with _ | u
  · refine ⟨⟨fun _ => Or.inl rfl, fun _ =>
      ⟨"migrator: Register up and down are both required", rfl⟩⟩, ?_⟩
    intro u' d' hu' _ _
    exact Option.noConfusion hu'
  rcases down with _ | d
  · refine ⟨⟨fun _ => Or.inr (Or.inl rfl), fun _ =>
      ⟨"migrator: Register up and down are both required", rfl⟩⟩, ?_⟩
    intro u' d' _ hd' _
    exact Option.noConfusion hd'
  by_cases hmem : version ∈ reg.map Prod.fst
  · rcases lookup_eq_some_of_mem_keys hmem with ⟨m, hm⟩
    refine ⟨⟨fun _ => Or.inr (Or.inr hmem), fun _ =>
      ⟨"migrator: Register called twice for migrator " ++
        String.mk version, ?_⟩⟩, ?_⟩
    · simp [Register, hm]
    · intro u' d' _ _ hmem'
      exact absurd hmem hmem'
  · have hl : reg.lookup version = none := by
      cases hl : reg.lookup version with
      | none => rfl
      | some m => exact absurd (List.mem_map_of_mem Prod.fst
          (mem_of_lookup_eq_some hl)) hmem
    refine ⟨⟨?_, fun h => ?_⟩, ?_⟩
    · rintro ⟨e, he⟩
      simp [Register, hl] at he
    · rcases h with h | h | h
      · exact absurd h (Option.some_ne_none u)
      · exact absurd h (Option.some_ne_none d)
      · exact absurd h hmem
    · rintro u' d' hu' hd' _
      obtain rfl : u' = u := (Option.some.inj hu').symm
      obtain rfl : d' = d := (Option.some.inj hd').symm
      simp [Register, hl]

/-- Witness for C9: re-registering the sentinel version errors, a nil
action errors, and a fresh registration inserts the migration. -/
theorem Register_panics_iff_witness :
    (∃ e, Register initRegistry zeroVersion "nil" (some emptyFunc)
      (some emptyFunc) = .error e) ∧
    (∃ e, Register initRegistry verA "a" none (some emptyFunc) =
      .error e) ∧
    Register initRegistry verA "a" (some emptyFunc) (some emptyFunc) =
      .ok ((verA, ⟨"a", emptyFunc, emptyFunc⟩) :: initRegistry) :=
  ⟨(Register_panics_iff initRegistry zeroVersion "nil" (some emptyFunc)
      (some emptyFunc)).1.mpr (Or.inr (Or.inr (by decide))),
    (Register_panics_iff initRegistry verA "a" none
      (some emptyFunc)).1.mpr (Or.inl rfl),
    (Register_panics_iff initRegistry verA "a" (some emptyFunc)
      (some emptyFunc)).2 emptyFunc emptyFunc rfl rfl (by decide)⟩

/-- Claim C8: starting from an empty bookkeeping table, migrating up to
any registered version `V` and then down to the sentinel
`"00010101T000000Z"` (every action succeeding, every real version above
the sentinel) errors in neither run and leaves the bookkeeping table
empty of all non-sentinel versions. -/
theorem migrate_roundtrip (reg : Registry) (V : Ver)
    (hnd : (reg.map Prod.fst).Nodup)
    (hz : ∀ p ∈ reg, zeroVersion ≤ p.1)
    (hok : ∀ p ∈ reg, p.2.up = .ok () ∧ p.2.down = .ok ())
    (hV : V ∈ reg.map Prod.fst) :
    (Migrate reg okEnv [] V).err = none ∧
    (Migrate reg okEnv (Migrate reg okEnv [] V).table zeroVersion).err =
      none ∧
    ∀ r ∈ (Migrate reg okEnv (Migrate reg okEnv [] V).table
      zeroVersion).table, r.version = zeroVersion := by
  have hstep : ∀ (u : Bool), ∀ w ∈ reg.map Prod.fst,
      StepOk reg okEnv u w := by
    intro u w hw
    rcases lookup_eq_some_of_mem_keys hw with ⟨m, hm⟩
    have hwm := hok _ (mem_of_lookup_eq_some hm)
    have hu : m.up = .ok () := hwm.1
    have hd : m.down = .ok () := hwm.2
    exact ⟨rfl, rfl, rfl, m, hm, by cases u <;> simp [hu, hd]⟩
  have hzV : zeroVersion ≤ V := by
    rcases lookup_eq_some_of_mem_keys hV with ⟨m, hm⟩
    exact hz _ (mem_of_lookup_eq_some hm)
  have h0z : ([] : Ver) < zeroVersion := by decide
  have h0V : ([] : Ver) < V := lt_of_lt_of_le h0z hzV
  have hVne : V ≠ [] := by
    intro hc
    rw [hc] at h0V
    exact lt_irrefl _ h0V
  have hrt1 : resolveTarget reg V = V := by simp [resolveTarget, hVne]
  have hcur1 : currentVersion (queryVersionsLast okEnv []) = .ok [] := rfl
  set plan1 := (sorted reg).filter (fun v => shouldMigrate v [] V true)
    with hplan1def
  have hcp1 : computePlan reg [] V = (true, plan1) := by
    rw [hplan1def]
    exact computePlan_up (not_lt.mpr (le_of_lt h0V))
  have hplan1_mem : ∀ w, w ∈ plan1 ↔
      w ∈ reg.map Prod.fst ∧ [] < w ∧ w ≤ V := by
    intro w
    rw [hplan1def]
    simp only [List.mem_filter, mem_sorted, shouldMigrate_up_iff]
    try tauto
  have hplan1_keys : ∀ w ∈ plan1, w ∈ reg.map Prod.fst :=
    fun w hw => ((hplan1_mem w).mp hw).1
  have hrun1 : Migrate reg okEnv [] V =
      ⟨none, applyPlan reg true plan1 [], []⟩ := by
    rw [Migrate_eq_runPlan rfl hcur1, hrt1, hcp1]
    exact runPlan_all_ok (fun w hw => hstep true w (hplan1_keys w hw)) [] []
  set t1 := applyPlan reg true plan1 [] with ht1def
  have ht1ver : t1.map Row.version = plan1 := by
    rw [ht1def]
    simpa using applyPlan_up_map_version hplan1_keys []
  have hVplan1 : V ∈ plan1 := (hplan1_mem V).mpr ⟨hV, h0V, le_refl V⟩
  have hmax : (t1.map Row.version).maximum = some V := by
    rw [ht1ver]
    exact maximum_eq_some_of_mem_of_le hVplan1
      (fun w hw => ((hplan1_mem w).mp hw).2.2)
  have hcur2 : currentVersion (queryVersionsLast okEnv t1) = .ok V := by
    have hq : queryVersionsLast okEnv t1 =
        match (t1.map Row.version).maximum with
        | none => .noRows
        | some v => .row v := rfl
    rw [hq, hmax]
    rfl
  have hzne : zeroVersion ≠ [] := by decide
  have hrt2 : resolveTarget reg zeroVersion = zeroVersion := by
    simp [resolveTarget, hzne]
  rcases lt_or_eq_of_le hzV with hlt | heq
  · set plan2 := (sorted reg).reverse.filter
      (fun v => shouldMigrate v V zeroVersion false) with hplan2def
    have hcp2 : computePlan reg V zeroVersion = (false, plan2) := by
      rw [hplan2def]
      exact computePlan_down hlt
    have hplan2_mem : ∀ w, w ∈ plan2 ↔
        w ∈ reg.map Prod.fst ∧ w ≤ V ∧ zeroVersion < w := by
      intro w
      rw [hplan2def]
      simp only [List.mem_filter, List.mem_reverse, mem_sorted,
        shouldMigrate_down_iff]
      try tauto
    have hplan2_keys : ∀ w ∈ plan2, w ∈ reg.map Prod.fst :=
      fun w hw => ((hplan2_mem w).mp hw).1
    have hrun2 : Migrate reg okEnv t1 zeroVersion =
        ⟨none, applyPlan reg false plan2 t1, []⟩ := by
      rw [Migrate_eq_runPlan rfl hcur2, hrt2, hcp2]
      exact runPlan_all_ok (fun w hw => hstep false w (hplan2_keys w hw))
        t1 []
    have htab1 : (Migrate reg okEnv [] V).table = t1 := by rw [hrun1]
    refine ⟨by rw [hrun1], ?_, ?_⟩
    · rw [htab1, hrun2]
    · rw [htab1, hrun2]
      intro r hr
      obtain ⟨hrt1mem, hrnot⟩ := mem_applyPlan_down hplan2_keys t1 hr
      have hrv : r.version ∈ plan1 := by
        rw [← ht1ver]
        exact List.mem_map_of_mem Row.version hrt1mem
      obtain ⟨hrkeys, hr0, hrV⟩ := (hplan1_mem _).mp hrv
      by_contra hne
      have hzr : zeroVersion ≤ r.version := by
        rcases lookup_eq_some_of_mem_keys hrkeys with ⟨m, hm⟩
        exact hz _ (mem_of_lookup_eq_some hm)
      have hzlt : zeroVersion < r.version :=
        lt_of_le_of_ne hzr (Ne.symm hne)
      exact hrnot ((hplan2_mem _).mpr ⟨hrkeys, hrV, hzlt⟩)
  · have hVz : V = zeroVersion := heq.symm
    subst hVz
    have hsm : ∀ w, shouldMigrate w zeroVersion zeroVersion true = false := by
      intro w
      by_cases h : zeroVersion < w
      · simp [shouldMigrate, gt_iff_lt, h, not_le.mpr h]
      · simp [shouldMigrate, gt_iff_lt, h]
    have hcp2 : computePlan reg zeroVersion zeroVersion = (true, []) := by
      rw [computePlan_up (lt_irrefl zeroVersion)]
      rw [List.filter_eq_nil_iff.mpr (fun a _ => by simp [hsm a])]
    have hrun2 : Migrate reg okEnv t1 zeroVersion = ⟨none, t1, []⟩ := by
      rw [Migrate_eq_runPlan rfl hcur2, hrt2, hcp2]
      rfl
    have htab1 : (Migrate reg okEnv [] zeroVersion).table = t1 := by
      rw [hrun1]
    refine ⟨by rw [hrun1], ?_, ?_⟩
    · rw [htab1, hrun2]
    · rw [htab1, hrun2]
      intro r hr
      have hrv : r.version ∈ plan1 := by
        rw [← ht1ver]
        exact List.mem_map_of_mem Row.version hr
      obtain ⟨hrkeys, hr0, hrV⟩ := (hplan1_mem _).mp hrv
      have hzr : zeroVersion ≤ r.version := by
        rcases lookup_eq_some_of_mem_keys hrkeys with ⟨m, hm⟩
        exact hz _ (mem_of_lookup_eq_some hm)
      exact le_antisymm hrV hzr

/-- Witness for C8 at the registry of the C3 scenario with `V = verC`. -/
theorem migrate_roundtrip_witness :
    (regC3.map Prod.fst).Nodup ∧ verC ∈ regC3.map Prod.fst ∧
    ((Migrate regC3 okEnv [] verC).err = none ∧
      (Migrate regC3 okEnv (Migrate regC3 okEnv [] verC).table
        zeroVersion).err = none ∧
      ∀ r ∈ (Migrate regC3 okEnv (Migrate regC3 okEnv [] verC).table
        zeroVersion).table, r.version = zeroVersion) :=
  ⟨by decide, by decide,
    migrate_roundtrip regC3 verC (by decide) (by decide) (by decide)
      (by decide)⟩

end Migrator
